import Mathlib

/-!
Verification of the LCP frame synchronizer/decoder (`lcp_sniff.py`).

The decoder reads a byte-stuffed stream: frames start with the sync marker
`0x7E 0x7E`; inside a frame every literal `0x1B` or `0x7E` byte is preceded by
the escape sentinel `0x1B`.  A frame is a 4-byte header `to, frm, status,
length`, then `length` payload bytes, then 2 CRC bytes (all unescaped).

The serial port is modelled as the list of chunks its successive `read` calls
return (`src : List (List Nat)`); an empty chunk models a timed-out / closed
read, which the code treats as exhaustion.  Bytes are `Nat` (the stream only
ever carries values 0..255, but none of the definitions depend on that).
-/

namespace LcpSniff

/-- `SYNC = b"\x7e\x7e"` -/
def SYNC : List Nat := [0x7E, 0x7E]

/-- `ESC = 0x1B` -/
def ESC : Nat := 0x1B

/-- `MAX_DATA_LEN = 255` -/
def MAX_DATA_LEN : Nat := 255

/-- State of `BufferedSerial`: the pending chunks the serial port will return,
and the internal buffer `self.buf` of raw (still escaped) bytes. -/
structure BufferedSerial where
  src : List (List Nat)
  buf : List Nat
deriving DecidableEq, Repr

/-- `BufferedSerial._fill(n)`: pull chunks from the port until at least `n`
bytes are buffered; an empty chunk makes it return `False` at once (the
buffer keeps everything fetched so far). -/
def fillAux : List (List Nat) → List Nat → Nat → Bool × BufferedSerial
  | src, buf, n =>
    if n ≤ buf.length then (true, ⟨src, buf⟩)
    else
      match src with
      | [] => (false, ⟨[], buf⟩)
      | c :: rest =>
        if c.isEmpty then (false, ⟨rest, buf⟩)
        else fillAux rest (buf ++ c) n

/-- `BufferedSerial._fill` on the state record. -/
def fill (bs : BufferedSerial) (n : Nat) : Bool × BufferedSerial :=
  fillAux bs.src bs.buf n

/-- `BufferedSerial.read_raw(n)`: `b""` for `n <= 0`; otherwise `n` bytes off
the front of the (filled) buffer, or `None` if the fill fails — in which case
the bytes fetched during the failed fill stay buffered. -/
def read_raw (bs : BufferedSerial) (n : Int) : Option (List Nat) × BufferedSerial :=
  if n ≤ 0 then (some [], bs)
  else
    match fill bs n.toNat with
    | (false, bs') => (none, bs')
    | (true, bs') => (some (bs'.buf.take n.toNat), ⟨bs'.src, bs'.buf.drop n.toNat⟩)

/-- Index of the first occurrence of `SYNC` (`bytes.find(SYNC)`),
`none` when absent. -/
def findSyncIdx : List Nat → Option Nat
  | [] => none
  | [_] => none
  | a :: b :: rest =>
    if a = 0x7E ∧ b = 0x7E then some 0
    else (findSyncIdx (b :: rest)).map (· + 1)

/-- `BufferedSerial.find_and_consume_sync()`: scan the buffer for `SYNC`,
fetching another chunk whenever it is absent; on a match drop everything up
to and including the pattern and return `True`; return `False` when a fetch
comes back empty. -/
def find_and_consume_sync : List (List Nat) → List Nat → Bool × BufferedSerial
  | src, buf =>
    match findSyncIdx buf with
    | some idx => (true, ⟨src, buf.drop (idx + 2)⟩)
    | none =>
      match src with
      | [] => (false, ⟨[], buf⟩)
      | c :: rest =>
        if c.isEmpty then (false, ⟨rest, buf⟩)
        else find_and_consume_sync rest (buf ++ c)

/-- `read_decoded_byte(bs)`: one raw byte; if it is `ESC`, the next raw byte
is returned literally; `None` as soon as either raw read fails. -/
def read_decoded_byte (bs : BufferedSerial) : Option Nat × BufferedSerial :=
  match read_raw bs 1 with
  | (none, bs1) => (none, bs1)
  | (some b, bs1) =>
    if b.headD 0 = ESC then
      match read_raw bs1 1 with
      | (none, bs2) => (none, bs2)
      | (some b2, bs2) => (some (b2.headD 0), bs2)
    else (some (b.headD 0), bs1)

/-- Values stored in the dict `decode_status` builds. -/
inductive SVal where
  | b (v : Bool)
  | n (v : Nat)
  | s (v : String)
deriving DecidableEq, Repr

/-- `decode_status(status)`: the dict, as an association list in insertion
order.  Keys of the direction that does not apply are simply not inserted. -/
def decode_status (status : Nat) : List (String × SVal) :=
  let is_response : Bool := status &&& 0x80 != 0
  let d : List (String × SVal) :=
    [("raw", SVal.n status),
     ("message_type", SVal.s (if is_response then "response" else "command")),
     ("message_identifier", SVal.n (status &&& 0x01)),
     ("synchronization", SVal.b (status &&& 0x02 != 0))]
  if !is_response then
    d ++ [("check_request", SVal.b (status &&& 0x04 != 0)),
          ("abort_request", SVal.b (status &&& 0x08 != 0)),
          ("reserved_bit4", SVal.b (status &&& 0x10 != 0)),
          ("reserved_bit5", SVal.b (status &&& 0x20 != 0)),
          ("reserved_bit6", SVal.b (status &&& 0x40 != 0))]
  else
    d ++ [("busy", SVal.b (status &&& 0x04 != 0)),
          ("request_aborted", SVal.b (status &&& 0x08 != 0)),
          ("no_request_active", SVal.b (status &&& 0x10 != 0)),
          ("buffer_overrun", SVal.b (status &&& 0x20 != 0)),
          ("not_supported", SVal.b (status &&& 0x40 != 0))]

/-- A successfully decoded frame as `main` reports it
(`crc` is `[crc0, crc1]`). -/
structure Frame where
  to_ : Nat
  frm : Nat
  status : Nat
  length : Nat
  data : List Nat
  crc : List Nat
deriving DecidableEq, Repr

/-- The four decoded header reads of `main` (`to_, frm, status, length`);
all four reads happen before the `None` check, as in the source. -/
def readHeader (bs : BufferedSerial) : Option (Nat × Nat × Nat × Nat) × BufferedSerial :=
  let r1 := read_decoded_byte bs
  let r2 := read_decoded_byte r1.2
  let r3 := read_decoded_byte r2.2
  let r4 := read_decoded_byte r3.2
  match r1.1, r2.1, r3.1, r4.1 with
  | some t, some f, some s, some l => (some (t, f, s, l), r4.2)
  | _, _, _, _ => (none, r4.2)

/-- The `for _ in range(length)` data loop of `main`: `length` decoded bytes,
`none` if any read fails. -/
def readData : Nat → BufferedSerial → Option (List Nat) × BufferedSerial
  | 0, bs => (some [], bs)
  | n + 1, bs =>
    match read_decoded_byte bs with
    | (none, bs') => (none, bs')
    | (some v, bs') =>
      match readData n bs' with
      | (none, bs'') => (none, bs'')
      | (some rest, bs'') => (some (v :: rest), bs'')

/-- One frame attempt of `main` after the sync was consumed: header with
sanity checks (`length > MAX_DATA_LEN`, `to_ == 0x7E`, `frm == 0x7E`), data,
two CRC bytes; `none` wherever the source `continue`s. -/
def readFrame (bs : BufferedSerial) : Option Frame × BufferedSerial :=
  match readHeader bs with
  | (none, bs') => (none, bs')
  | (some (t, f, s, l), bs') =>
    if l > MAX_DATA_LEN ∨ t = 0x7E ∨ f = 0x7E then (none, bs')
    else
      match readData l bs' with
      | (none, bs'') => (none, bs'')
      | (some d, bs'') =>
        let r1 := read_decoded_byte bs''
        let r2 := read_decoded_byte r1.2
        match r1.1, r2.1 with
        | some c0, some c1 => (some ⟨t, f, s, l, d, [c0, c1]⟩, r2.2)
        | _, _ => (none, r2.2)

/-- The `while True` loop of `main`, fuelled (the real loop spins forever on
an exhausted port; the fuel only bounds how often it retries). -/
def decodeLoop : Nat → BufferedSerial → List Frame
  | 0, _ => []
  | fuel + 1, bs =>
    match find_and_consume_sync bs.src bs.buf with
    | (false, bs') => decodeLoop fuel bs'
    | (true, bs') =>
      match readFrame bs' with
      | (none, bs'') => decodeLoop fuel bs''
      | (some f, bs'') => f :: decodeLoop fuel bs''

/-- `decodeLoop` instrumented with the number of frame attempts that were
aborted after a sync was found (the `continue`s of `main`'s decode body).
`main` keeps no such counter; this observer measures what it discards. -/
def decodeLoopCounted : Nat → BufferedSerial → List Frame × Nat
  | 0, _ => ([], 0)
  | fuel + 1, bs =>
    match find_and_consume_sync bs.src bs.buf with
    | (false, bs') => decodeLoopCounted fuel bs'
    | (true, bs') =>
      match readFrame bs' with
      | (none, bs'') =>
        let r := decodeLoopCounted fuel bs''
        (r.1, r.2 + 1)
      | (some f, bs'') =>
        let r := decodeLoopCounted fuel bs''
        (f :: r.1, r.2)

/-- The byte-stuffing encoder of the round-trip claim: a literal `0x1B` or
`0x7E` is preceded by the escape sentinel. -/
def escByte (b : Nat) : List Nat :=
  if b = 0x1B ∨ b = 0x7E then [0x1B, b] else [b]

/-- Escape a whole byte sequence. -/
def escape : List Nat → List Nat
  | [] => []
  | b :: rest => escByte b ++ escape rest

/-- The sync pattern `0x7E 0x7E` occurs at index `i`. -/
def hasSyncAt (l : List Nat) (i : Nat) : Prop :=
  l[i]? = some 0x7E ∧ l[i + 1]? = some 0x7E

instance (l : List Nat) (i : Nat) : Decidable (hasSyncAt l i) :=
  inferInstanceAs (Decidable (_ ∧ _))

/-! ### Basic read lemmas -/

theorem fillAux_of_le (src : List (List Nat)) (buf : List Nat) (n : Nat)
    (h : n ≤ buf.length) : fillAux src buf n = (true, ⟨src, buf⟩) := by
  unfold fillAux
  simp [h]

theorem read_raw_one_cons (src : List (List Nat)) (b : Nat) (rest : List Nat) :
    read_raw ⟨src, b :: rest⟩ 1 = (some [b], ⟨src, rest⟩) := by
  have h1 : (1 : Nat) ≤ (b :: rest).length := by simp
  simp [read_raw, fill, fillAux_of_le _ _ _ h1]

theorem read_decoded_escByte (src : List (List Nat)) (m : Nat) (rest : List Nat) :
    read_decoded_byte ⟨src, escByte m ++ rest⟩ = (some m, ⟨src, rest⟩) := by
  by_cases h : m = 0x1B ∨ m = 0x7E
  · simp only [escByte, if_pos h, List.cons_append, List.nil_append]
    simp [read_decoded_byte, read_raw_one_cons, ESC]
  · simp only [escByte, if_neg h, List.cons_append, List.nil_append]
    have hm : m ≠ 0x1B := fun hc => h (Or.inl hc)
    simp [read_decoded_byte, read_raw_one_cons, ESC, hm]

theorem readData_escape (ds : List Nat) :
    ∀ src rest, readData ds.length ⟨src, escape ds ++ rest⟩ = (some ds, ⟨src, rest⟩) := by
  induction ds with
  | nil => intro src rest; simp [escape, readData]
  | cons d ds ih =>
    intro src rest
    simp only [List.length_cons, escape, List.append_assoc, readData,
      read_decoded_escByte, ih]

theorem readHeader_escape (src : List (List Nat)) (a b c d : Nat) (rest : List Nat) :
    readHeader ⟨src, escByte a ++ (escByte b ++ (escByte c ++ (escByte d ++ rest)))⟩
      = (some (a, b, c, d), ⟨src, rest⟩) := by
  simp [readHeader, read_decoded_escByte]

/-! ### The sync search -/

theorem hasSyncAt_cons_succ (a : Nat) (l : List Nat) (i : Nat) :
    hasSyncAt (a :: l) (i + 1) ↔ hasSyncAt l i := by
  simp [hasSyncAt]

theorem hasSyncAt_zero (a b : Nat) (l : List Nat) :
    hasSyncAt (a :: b :: l) 0 ↔ a = 0x7E ∧ b = 0x7E := by
  simp [hasSyncAt]

/-- `findSyncIdx` returns the first occurrence of the sync pattern:
`none` exactly when there is none, and `some i` only at the least index. -/
theorem findSyncIdx_spec : ∀ l : List Nat,
    (findSyncIdx l = none → ∀ i, ¬ hasSyncAt l i) ∧
    (∀ i, findSyncIdx l = some i → hasSyncAt l i ∧ ∀ j < i, ¬ hasSyncAt l j) := by
  intro l
  induction l with
  | nil =>
    refine ⟨fun _ i => ?_, fun i h => by simp [findSyncIdx] at h⟩
    simp [hasSyncAt]
  | cons a t ih =>
    cases t with
    | nil =>
      refine ⟨fun _ i => ?_, fun i h => by simp [findSyncIdx] at h⟩
      match i with
      | 0 => simp [hasSyncAt]
      | i + 1 => simp [hasSyncAt]
    | cons b r =>
      by_cases hab : a = 0x7E ∧ b = 0x7E
      · refine ⟨fun hn => ?_, fun i hi => ?_⟩
        · simp [findSyncIdx, hab] at hn
        · simp only [findSyncIdx, if_pos hab] at hi
          obtain rfl : i = 0 := by injection hi with h; omega
          exact ⟨(hasSyncAt_zero a b r).mpr hab, fun j hj => absurd hj (Nat.not_lt_zero j)⟩
      · constructor
        · intro hn i
          simp only [findSyncIdx, if_neg hab] at hn
          match i with
          | 0 => exact fun hs => hab ((hasSyncAt_zero a b r).mp hs)
          | i + 1 =>
            rw [hasSyncAt_cons_succ]
            cases hf : findSyncIdx (b :: r) with
            | none => exact ih.1 hf i
            | some k => rw [hf] at hn; simp at hn
        · intro i hi
          simp only [findSyncIdx, if_neg hab] at hi
          cases hf : findSyncIdx (b :: r) with
          | none => rw [hf] at hi; simp at hi
          | some k =>
            rw [hf] at hi
            simp only [Option.map_some'] at hi
            obtain rfl : i = k + 1 := by injection hi with h; omega
            refine ⟨(hasSyncAt_cons_succ a (b :: r) k).mpr (ih.2 k hf).1, ?_⟩
            intro j hj
            match j with
            | 0 => exact fun hs => hab ((hasSyncAt_zero a b r).mp hs)
            | j + 1 =>
              rw [hasSyncAt_cons_succ]
              exact (ih.2 k hf).2 j (by omega)

/-- A sync found in a prefix is the sync found in the whole stream. -/
theorem findSyncIdx_append (xs ys : List Nat) (j : Nat) (h : findSyncIdx xs = some j) :
    findSyncIdx (xs ++ ys) = some j := by
  induction xs generalizing j with
  | nil => simp [findSyncIdx] at h
  | cons a t ih =>
    cases t with
    | nil => simp [findSyncIdx] at h
    | cons b r =>
      by_cases hab : a = 0x7E ∧ b = 0x7E
      · simp only [findSyncIdx, if_pos hab] at h
        obtain rfl : j = 0 := by injection h with h; omega
        simp [List.cons_append, findSyncIdx, hab]
      · simp only [findSyncIdx, if_neg hab] at h
        cases hf : findSyncIdx (b :: r) with
        | none => rw [hf] at h; simp at h
        | some k =>
          rw [hf] at h
          simp only [Option.map_some'] at h
          have hih := ih k hf
          simp only [List.cons_append] at hih ⊢
          simp only [findSyncIdx, if_neg hab]
          rw [hih]
          simpa using h

theorem findSyncIdx_le_length (l : List Nat) (i : Nat) (h : findSyncIdx l = some i) :
    i + 2 ≤ l.length := by
  have hs := ((findSyncIdx_spec l).2 i h).1
  have := (List.getElem?_eq_some.mp hs.2).1
  omega

/-- `find_and_consume_sync` when the combined stream has no sync pattern:
everything is fetched, no success. -/
theorem facs_no_sync : ∀ src : List (List Nat), ∀ buf : List Nat,
    (∀ c ∈ src, c ≠ []) → findSyncIdx (buf ++ src.flatten) = none →
    find_and_consume_sync src buf = (false, ⟨[], buf ++ src.flatten⟩) := by
  intro src
  induction src with
  | nil =>
    intro buf _ h
    simp only [List.flatten_nil, List.append_nil] at h ⊢
    simp [find_and_consume_sync, h]
  | cons c rest ih =>
    intro buf hne h
    have hbuf : findSyncIdx buf = none := by
      cases hb : findSyncIdx buf with
      | none => rfl
      | some j =>
        rw [findSyncIdx_append buf (c :: rest).flatten j hb] at h
        cases h
    have hc : c.isEmpty = false := by
      have := hne c (List.mem_cons_self c rest)
      simp_all
    simp only [find_and_consume_sync, hbuf, hc]
    have h' : findSyncIdx ((buf ++ c) ++ rest.flatten) = none := by
      simpa [List.append_assoc] using h
    have := ih (buf ++ c) (fun x hx => hne x (List.mem_cons_of_mem c hx)) h'
    simp only [Bool.false_eq_true, if_false]
    rw [this]
    simp [List.append_assoc]

/-- `find_and_consume_sync` when the combined stream has a sync pattern at `i`:
success, and the not-yet-consumed stream is exactly the suffix after it. -/
theorem facs_sync : ∀ src : List (List Nat), ∀ buf : List Nat, ∀ i : Nat,
    (∀ c ∈ src, c ≠ []) → findSyncIdx (buf ++ src.flatten) = some i →
    ∃ bs', find_and_consume_sync src buf = (true, bs') ∧
      bs'.buf ++ bs'.src.flatten = (buf ++ src.flatten).drop (i + 2) := by
  intro src
  induction src with
  | nil =>
    intro buf i _ h
    simp only [List.flatten_nil, List.append_nil] at h ⊢
    exact ⟨⟨[], buf.drop (i + 2)⟩, by simp [find_and_consume_sync, h], by simp⟩
  | cons c rest ih =>
    intro buf i hne h
    cases hb : findSyncIdx buf with
    | some j =>
      have hij : i = j := by
        rw [findSyncIdx_append buf (c :: rest).flatten j hb] at h
        injection h with h; omega
      subst hij
      refine ⟨⟨c :: rest, buf.drop (i + 2)⟩, by simp [find_and_consume_sync, hb], ?_⟩
      rw [List.drop_append_of_le_length (findSyncIdx_le_length buf i hb)]
    | none =>
      have hc : c.isEmpty = false := by
        have := hne c (List.mem_cons_self c rest)
        simp_all
      have h' : findSyncIdx ((buf ++ c) ++ rest.flatten) = some i := by
        simpa [List.append_assoc] using h
      obtain ⟨bs', h1, h2⟩ := ih (buf ++ c) i (fun x hx => hne x (List.mem_cons_of_mem c hx)) h'
      refine ⟨bs', ?_, ?_⟩
      · simp only [find_and_consume_sync, hb, hc]
        simpa using h1
      · rw [h2]; simp [List.append_assoc]

/-! ### Decoding an escaped stream -/

theorem escape_append (xs ys : List Nat) :
    escape (xs ++ ys) = escape xs ++ escape ys := by
  induction xs with
  | nil => simp [escape]
  | cons b rest ih => simp [escape, ih]

/-- Decoding a whole escaped frame body: header passes its sanity checks,
the data loop returns exactly the payload, the two CRC bytes follow, and
whatever comes after the frame is left in the buffer. -/
theorem readFrame_escape (src : List (List Nat)) (t f s : Nat) (data : List Nat)
    (c0 c1 : Nat) (rest : List Nat) (ht : t ≠ 0x7E) (hf : f ≠ 0x7E)
    (hlen : data.length ≤ 255) :
    readFrame ⟨src, escape ([t, f, s, data.length] ++ data ++ [c0, c1]) ++ rest⟩
      = (some ⟨t, f, s, data.length, data, [c0, c1]⟩, ⟨src, rest⟩) := by
  have hck : ¬(data.length > MAX_DATA_LEN ∨ t = 0x7E ∨ f = 0x7E) := by
    push_neg
    exact ⟨by simp [MAX_DATA_LEN]; omega, ht, hf⟩
  have hbuf : escape ([t, f, s, data.length] ++ data ++ [c0, c1]) ++ rest
      = escByte t ++ (escByte f ++ (escByte s ++ (escByte data.length ++
          (escape data ++ (escByte c0 ++ (escByte c1 ++ rest)))))) := by
    simp [escape_append, escape, List.append_assoc]
  rw [hbuf]
  rw [readFrame, readHeader_escape]
  simp only [if_neg hck]
  rw [readData_escape]
  simp [read_decoded_escByte]

theorem decodeLoop_drained (fuel : Nat) : decodeLoop fuel ⟨[], []⟩ = [] := by
  induction fuel with
  | zero => rfl
  | succ fuel ih => simpa [decodeLoop, find_and_consume_sync, findSyncIdx] using ih

/-! ### Structural invariants of emitted frames -/

theorem readData_some_length : ∀ n : Nat, ∀ bs d bs',
    readData n bs = (some d, bs') → d.length = n := by
  intro n
  induction n with
  | zero => intro bs d bs' h; simp only [readData] at h; cases h; rfl
  | succ n ih =>
    intro bs d bs' h
    simp only [readData] at h
    cases h1 : read_decoded_byte bs with
    | mk o bs1 =>
      rw [h1] at h
      cases o with
      | none => simp at h
      | some v =>
        simp only at h
        cases h2 : readData n bs1 with
        | mk o2 bs2 =>
          rw [h2] at h
          cases o2 with
          | none => simp at h
          | some ds =>
            simp only at h
            cases h
            simpa using ih bs1 ds bs' h2

/-- Every frame `readFrame` emits satisfies the structural invariants of a
decoded frame. -/
theorem readFrame_some_inv (bs bs' : BufferedSerial) (fr : Frame)
    (h : readFrame bs = (some fr, bs')) :
    fr.data.length = fr.length ∧ fr.length ≤ 255 ∧
      fr.to_ ≠ 0x7E ∧ fr.frm ≠ 0x7E ∧ fr.crc.length = 2 := by
  rw [readFrame] at h
  cases hh : readHeader bs with
  | mk oh bs1 =>
    rw [hh] at h
    cases oh with
    | none => simp at h
    | some q =>
      obtain ⟨t, f, s, l⟩ := q
      simp only at h
      by_cases hck : l > MAX_DATA_LEN ∨ t = 0x7E ∨ f = 0x7E
      · rw [if_pos hck] at h; cases h
      · rw [if_neg hck] at h
        push_neg at hck
        cases hd : readData l bs1 with
        | mk od bs2 =>
          rw [hd] at h
          cases od with
          | none => simp at h
          | some d =>
            simp only at h
            cases hc0 : (read_decoded_byte bs2).1 with
            | none => rw [hc0] at h; simp at h
            | some c0 =>
              rw [hc0] at h
              cases hc1 : (read_decoded_byte (read_decoded_byte bs2).2).1 with
              | none => rw [hc1] at h; simp at h
              | some c1 =>
                rw [hc1] at h
                simp only [Prod.mk.injEq, Option.some.injEq] at h
                obtain ⟨rfl, -⟩ := h
                refine ⟨readData_some_length l bs1 d bs2 hd, ?_, ?_, ?_, rfl⟩
                · simpa [MAX_DATA_LEN] using hck.1
                · exact hck.2.1
                · exact hck.2.2

/-- Every frame the decode loop ever emits came out of a successful
`readFrame`, so it satisfies the structural invariants. -/
theorem decodeLoop_mem_inv : ∀ fuel : Nat, ∀ bs : BufferedSerial, ∀ fr : Frame,
    fr ∈ decodeLoop fuel bs →
    fr.data.length = fr.length ∧ fr.length ≤ 255 ∧
      fr.to_ ≠ 0x7E ∧ fr.frm ≠ 0x7E ∧ fr.crc.length = 2 := by
  intro fuel
  induction fuel with
  | zero => intro bs fr h; simp [decodeLoop] at h
  | succ fuel ih =>
    intro bs fr h
    rw [decodeLoop] at h
    cases hs : find_and_consume_sync bs.src bs.buf with
    | mk ok bs1 =>
      rw [hs] at h
      cases ok with
      | false => exact ih bs1 fr h
      | true =>
        simp only at h
        cases hr : readFrame bs1 with
        | mk o bs2 =>
          rw [hr] at h
          cases o with
          | none => exact ih bs2 fr h
          | some f0 =>
            simp only [List.mem_cons] at h
            cases h with
            | inl he => exact he ▸ readFrame_some_inv bs1 bs2 f0 hr
            | inr ht => exact ih bs2 fr ht

/-! ### Fill / raw-read bookkeeping -/

/-- Filling only ever appends fetched bytes to the buffer. -/
theorem fillAux_buf_extend : ∀ src : List (List Nat), ∀ buf : List Nat, ∀ n : Nat,
    ∀ ok bs', fillAux src buf n = (ok, bs') → ∃ fetched, bs'.buf = buf ++ fetched := by
  intro src
  induction src with
  | nil =>
    intro buf n ok bs' h
    unfold fillAux at h
    by_cases hle : n ≤ buf.length
    · rw [if_pos hle] at h; cases h; exact ⟨[], by simp⟩
    · rw [if_neg hle] at h; cases h; exact ⟨[], by simp⟩
  | cons c rest ih =>
    intro buf n ok bs' h
    unfold fillAux at h
    by_cases hle : n ≤ buf.length
    · rw [if_pos hle] at h; cases h; exact ⟨[], by simp⟩
    · rw [if_neg hle] at h
      simp only at h
      by_cases hc : c.isEmpty
      · rw [if_pos hc] at h; cases h; exact ⟨[], by simp⟩
      · rw [if_neg hc] at h
        obtain ⟨fetched, hfe⟩ := ih (buf ++ c) n ok bs' h
        exact ⟨c ++ fetched, by simp [hfe]⟩

/-- A successful fill leaves at least `n` bytes buffered. -/
theorem fillAux_true_length : ∀ src : List (List Nat), ∀ buf : List Nat, ∀ n : Nat,
    ∀ bs', fillAux src buf n = (true, bs') → n ≤ bs'.buf.length := by
  intro src
  induction src with
  | nil =>
    intro buf n bs' h
    unfold fillAux at h
    by_cases hle : n ≤ buf.length
    · rw [if_pos hle] at h; cases h; exact hle
    · rw [if_neg hle] at h; cases h
  | cons c rest ih =>
    intro buf n bs' h
    unfold fillAux at h
    by_cases hle : n ≤ buf.length
    · rw [if_pos hle] at h; cases h; exact hle
    · rw [if_neg hle] at h
      simp only at h
      by_cases hc : c.isEmpty
      · rw [if_pos hc] at h; cases h
      · rw [if_neg hc] at h
        exact ih (buf ++ c) n bs' h

/-! ### Claim theorems -/

/-- C5: decoding the raw pair `(0x1B, x)` consumes both raw bytes and yields
the literal byte `x` (also for `x = 0x1B` and `x = 0x7E`); a raw byte other
than `0x1B` is consumed alone and returned unchanged. -/
theorem claim_C5 :
    (∀ src : List (List Nat), ∀ x : Nat, ∀ rest : List Nat,
       read_decoded_byte ⟨src, 0x1B :: x :: rest⟩ = (some x, ⟨src, rest⟩)) ∧
    (∀ src : List (List Nat), ∀ b1 : Nat, ∀ rest : List Nat, b1 ≠ 0x1B →
       read_decoded_byte ⟨src, b1 :: rest⟩ = (some b1, ⟨src, rest⟩)) := by
  constructor
  · intro src x rest
    simp [read_decoded_byte, read_raw_one_cons, ESC]
  · intro src b1 rest hb
    simp [read_decoded_byte, read_raw_one_cons, ESC, hb]

theorem claim_C5_witness :
    read_decoded_byte ⟨[], [0x1B, 0x7E]⟩ = (some 0x7E, ⟨[], []⟩) ∧
    read_decoded_byte ⟨[], [0x42, 0x43]⟩ = (some 0x42, ⟨[], [0x43]⟩) :=
  ⟨claim_C5.1 [] 0x7E [], claim_C5.2 [] 0x42 [0x43] (by decide)⟩

/-- C9: whenever either raw read of the unescaper fails (stream ends before a
raw byte, or right after an escape sentinel), `read_decoded_byte` returns the
failure value `none` — never a substituted default byte. -/
theorem claim_C9 :
    (∀ bs bs' : BufferedSerial, read_raw bs 1 = (none, bs') →
       read_decoded_byte bs = (none, bs')) ∧
    (∀ bs : BufferedSerial, ∀ b : List Nat, ∀ bs' bs'' : BufferedSerial,
       read_raw bs 1 = (some b, bs') → b.headD 0 = ESC →
       read_raw bs' 1 = (none, bs'') → read_decoded_byte bs = (none, bs'')) := by
  constructor
  · intro bs bs' h
    simp [read_decoded_byte, h]
  · intro bs b bs' bs'' h1 hesc h2
    simp only [read_decoded_byte, h1]
    rw [if_pos hesc]
    simp [h2]

theorem claim_C9_witness :
    read_decoded_byte ⟨[], []⟩ = (none, ⟨[], []⟩) ∧
    read_decoded_byte ⟨[], [0x1B]⟩ = (none, ⟨[], []⟩) :=
  ⟨claim_C9.1 ⟨[], []⟩ ⟨[], []⟩ (by decide),
   claim_C9.2 ⟨[], [0x1B]⟩ [0x1B] ⟨[], []⟩ ⟨[], []⟩ (by decide) (by decide) (by decide)⟩

/-- C6: the raw input `7E 7E 01 02 00 02 1B 7E 1B 1B AA BB` decodes to exactly
one frame with `to=1, frm=2, status=0, length=2, data=[0x7E,0x1B],
crc=[0xAA,0xBB]` — escaped sync and escape values decode literally. -/
theorem claim_C6 : ∀ fuel : Nat,
    decodeLoop (fuel + 1)
        ⟨[], [0x7E, 0x7E, 0x01, 0x02, 0x00, 0x02, 0x1B, 0x7E, 0x1B, 0x1B, 0xAA, 0xBB]⟩
      = [⟨0x01, 0x02, 0x00, 2, [0x7E, 0x1B], [0xAA, 0xBB]⟩] := by
  intro fuel
  have h1 : find_and_consume_sync ([] : List (List Nat))
      [0x7E, 0x7E, 0x01, 0x02, 0x00, 0x02, 0x1B, 0x7E, 0x1B, 0x1B, 0xAA, 0xBB]
      = (true, ⟨[], [0x01, 0x02, 0x00, 0x02, 0x1B, 0x7E, 0x1B, 0x1B, 0xAA, 0xBB]⟩) := by
    decide
  have h2 : readFrame ⟨[], [0x01, 0x02, 0x00, 0x02, 0x1B, 0x7E, 0x1B, 0x1B, 0xAA, 0xBB]⟩
      = (some ⟨0x01, 0x02, 0x00, 2, [0x7E, 0x1B], [0xAA, 0xBB]⟩, ⟨[], []⟩) := by
    decide
  simp [decodeLoop, h1, h2, decodeLoop_drained]

/-- C4: for every status byte, the dict is tagged `response` exactly when bit
7 is set and `command` otherwise; the command-only keys are present only in
the command case and the response-only keys only in the response case — keys
of the opposite direction are absent, not present with value `false`. -/
theorem claim_C4 : ∀ s : Nat, s < 256 →
    (((decode_status s).lookup "message_type" = some (SVal.s "response")) ↔ s &&& 0x80 ≠ 0) ∧
    (((decode_status s).lookup "message_type" = some (SVal.s "command")) ↔ s &&& 0x80 = 0) ∧
    (s &&& 0x80 = 0 →
      ((decode_status s).lookup "check_request").isSome ∧
      ((decode_status s).lookup "abort_request").isSome ∧
      ((decode_status s).lookup "reserved_bit4").isSome ∧
      ((decode_status s).lookup "reserved_bit5").isSome ∧
      ((decode_status s).lookup "reserved_bit6").isSome ∧
      (decode_status s).lookup "busy" = none ∧
      (decode_status s).lookup "request_aborted" = none ∧
      (decode_status s).lookup "no_request_active" = none ∧
      (decode_status s).lookup "buffer_overrun" = none ∧
      (decode_status s).lookup "not_supported" = none) ∧
    (s &&& 0x80 ≠ 0 →
      ((decode_status s).lookup "busy").isSome ∧
      ((decode_status s).lookup "request_aborted").isSome ∧
      ((decode_status s).lookup "no_request_active").isSome ∧
      ((decode_status s).lookup "buffer_overrun").isSome ∧
      ((decode_status s).lookup "not_supported").isSome ∧
      (decode_status s).lookup "check_request" = none ∧
      (decode_status s).lookup "abort_request" = none ∧
      (decode_status s).lookup "reserved_bit4" = none ∧
      (decode_status s).lookup "reserved_bit5" = none ∧
      (decode_status s).lookup "reserved_bit6" = none) := by
  intro s _
  by_cases h : s &&& 0x80 = 0
  · have hb : (s &&& 0x80 != 0) = false := by simp [h]
    simp [decode_status, hb, List.lookup, h]
  · have hb : (s &&& 0x80 != 0) = true := by simp [h]
    simp [decode_status, hb, List.lookup, h]

theorem claim_C4_witness :
    (decode_status 0x03).lookup "busy" = none ∧
    (decode_status 0x80).lookup "check_request" = none :=
  ⟨((claim_C4 0x03 (by decide)).2.2.1 (by decide)).2.2.2.2.2.1,
   ((claim_C4 0x80 (by decide)).2.2.2 (by decide)).2.2.2.2.2.1⟩

/-- C1 (amended): the round trip holds for every header with `to ≠ 0x7E` and
`from ≠ 0x7E`: prefixing `0x7E 0x7E` to the escaped header/payload/CRC bytes
and running the decode loop reproduces exactly the original frame. -/
theorem claim_C1 (t f s : Nat) (data : List Nat) (c0 c1 : Nat) (fuel : Nat)
    (ht : t ≠ 0x7E) (hf : f ≠ 0x7E) (hlen : data.length ≤ 255) :
    decodeLoop (fuel + 1)
        ⟨[], 0x7E :: 0x7E :: escape ([t, f, s, data.length] ++ data ++ [c0, c1])⟩
      = [⟨t, f, s, data.length, data, [c0, c1]⟩] := by
  have hrf := readFrame_escape [] t f s data c0 c1 [] ht hf hlen
  rw [List.append_nil] at hrf
  have hsync : find_and_consume_sync ([] : List (List Nat))
      (0x7E :: 0x7E :: escape ([t, f, s, data.length] ++ data ++ [c0, c1]))
      = (true, ⟨[], escape ([t, f, s, data.length] ++ data ++ [c0, c1])⟩) := by
    simp [find_and_consume_sync, findSyncIdx]
  set E := escape ([t, f, s, data.length] ++ data ++ [c0, c1]) with hE
  simp [decodeLoop, hsync, hrf, decodeLoop_drained]

theorem claim_C1_witness :
    decodeLoop 3 ⟨[], 0x7E :: 0x7E :: escape [0x01, 0x02, 0x80, 1, 0x7E, 0xAA, 0xBB]⟩
      = [⟨0x01, 0x02, 0x80, 1, [0x7E], [0xAA, 0xBB]⟩] := by
  have h := claim_C1 0x01 0x02 0x80 [0x7E] 0xAA 0xBB 2 (by decide) (by decide) (by decide)
  simpa using h

/-- C1 counterexample: the claim quantifies over every header quadruple, but
for `to = 0x7E` (a legal byte value, escaped on the wire) the decoded header
fails the sanity check `to_ == 0x7E` and the loop emits nothing at all. -/
theorem claim_C1_counterexample :
    decodeLoop 5 ⟨[], 0x7E :: 0x7E :: escape ([0x7E, 0, 0, 0] ++ [] ++ [0, 0])⟩ = [] ∧
    decodeLoop 5 ⟨[], 0x7E :: 0x7E :: escape ([0x7E, 0, 0, 0] ++ [] ++ [0, 0])⟩
      ≠ [⟨0x7E, 0, 0, 0, [], [0, 0]⟩] := by
  decide

/-- C2: every frame the decode loop emits satisfies `len(data) = length`,
`length ≤ 255`, `to ≠ 0x7E`, `frm ≠ 0x7E` and has exactly 2 CRC bytes; and a
frame attempt that aborts after a sync produces nothing — the loop's output
is that of resuming at sync-seeking from the post-abort state. -/
theorem claim_C2 :
    (∀ fuel : Nat, ∀ src : List (List Nat), ∀ buf : List Nat, ∀ fr : Frame,
       fr ∈ decodeLoop fuel ⟨src, buf⟩ →
       fr.data.length = fr.length ∧ fr.length ≤ 255 ∧
         fr.to_ ≠ 0x7E ∧ fr.frm ≠ 0x7E ∧ fr.crc.length = 2) ∧
    (∀ fuel : Nat, ∀ bs bs1 bs2 : BufferedSerial,
       find_and_consume_sync bs.src bs.buf = (true, bs1) →
       readFrame bs1 = (none, bs2) →
       decodeLoop (fuel + 1) bs = decodeLoop fuel bs2) := by
  constructor
  · intro fuel src buf fr h
    exact decodeLoop_mem_inv fuel ⟨src, buf⟩ fr h
  · intro fuel bs bs1 bs2 h1 h2
    simp [decodeLoop, h1, h2]

theorem claim_C2_witness :
    ((⟨1, 2, 0, 0, [], [0xAA, 0xBB]⟩ : Frame).data.length
        = (⟨1, 2, 0, 0, [], [0xAA, 0xBB]⟩ : Frame).length ∧
      (⟨1, 2, 0, 0, [], [0xAA, 0xBB]⟩ : Frame).length ≤ 255 ∧
      (⟨1, 2, 0, 0, [], [0xAA, 0xBB]⟩ : Frame).to_ ≠ 0x7E ∧
      (⟨1, 2, 0, 0, [], [0xAA, 0xBB]⟩ : Frame).frm ≠ 0x7E ∧
      (⟨1, 2, 0, 0, [], [0xAA, 0xBB]⟩ : Frame).crc.length = 2) ∧
    decodeLoop 6 ⟨[], [0x7E, 0x7E, 0x1B, 0x7E, 0, 0, 0, 0, 0]⟩
      = decodeLoop 5 ⟨[], [0, 0]⟩ :=
  ⟨claim_C2.1 1 [] [0x7E, 0x7E, 1, 2, 0, 0, 0xAA, 0xBB] ⟨1, 2, 0, 0, [], [0xAA, 0xBB]⟩
     (by decide),
   claim_C2.2 5 ⟨[], [0x7E, 0x7E, 0x1B, 0x7E, 0, 0, 0, 0, 0]⟩
     ⟨[], [0x1B, 0x7E, 0, 0, 0, 0, 0]⟩ ⟨[], [0, 0]⟩ (by decide) (by decide)⟩

/-- C3: over the bytes the source yields (nonempty chunks until exhaustion):
with no `0x7E 0x7E` occurrence anywhere, `find_and_consume_sync` only reports
exhaustion; with a first occurrence at `i` — also when it straddles chunks —
it succeeds and everything up to and including the pattern is discarded, the
remaining stream being exactly the suffix after it. -/
theorem claim_C3 : ∀ src : List (List Nat), ∀ buf : List Nat,
    (∀ c ∈ src, c ≠ []) →
    ((∀ i, ¬ hasSyncAt (buf ++ src.flatten) i) →
       find_and_consume_sync src buf = (false, ⟨[], buf ++ src.flatten⟩)) ∧
    (∀ i, hasSyncAt (buf ++ src.flatten) i →
       (∀ j < i, ¬ hasSyncAt (buf ++ src.flatten) j) →
       ∃ bs', find_and_consume_sync src buf = (true, bs') ∧
         bs'.buf ++ bs'.src.flatten = (buf ++ src.flatten).drop (i + 2)) := by
  intro src buf hne
  constructor
  · intro hno
    apply facs_no_sync src buf hne
    cases hf : findSyncIdx (buf ++ src.flatten) with
    | none => rfl
    | some k => exact absurd ((findSyncIdx_spec _).2 k hf).1 (hno k)
  · intro i hi hmin
    have hf : findSyncIdx (buf ++ src.flatten) = some i := by
      cases hf : findSyncIdx (buf ++ src.flatten) with
      | none => exact absurd hi ((findSyncIdx_spec _).1 hf i)
      | some k =>
        have hk := (findSyncIdx_spec _).2 k hf
        have h1 : ¬ k < i := fun hlt => (hmin k hlt) hk.1
        have h2 : ¬ i < k := fun hlt => (hk.2 i hlt) hi
        have hki : k = i := by omega
        rw [hki]
    exact facs_sync src buf i hne hf

theorem claim_C3_witness :
    find_and_consume_sync [[0x01]] [0x7E] = (false, ⟨[], [0x7E] ++ [[0x01]].flatten⟩) ∧
    (∃ bs', find_and_consume_sync [[0x00, 0x7E], [0x7E, 0x42]] [] = (true, bs') ∧
       bs'.buf ++ bs'.src.flatten
         = (([] : List Nat) ++ [[0x00, 0x7E], [0x7E, 0x42]].flatten).drop (1 + 2)) := by
  have hno : ∀ i, ¬ hasSyncAt (([0x7E] : List Nat) ++ [[0x01]].flatten) i := by
    intro i
    match i with
    | 0 => decide
    | 1 => decide
    | n + 2 => simp [hasSyncAt]
  exact ⟨(claim_C3 [[0x01]] [0x7E] (by decide)).1 hno,
         (claim_C3 [[0x00, 0x7E], [0x7E, 0x42]] [] (by decide)).2 1 (by decide) (by decide)⟩

/-- C7: a decoded header with `length = 0` yields empty data and still
consumes exactly the 2 CRC bytes; one with `length = 255` consumes exactly
255 data bytes before the CRC — in both cases the bytes after the frame are
left untouched in the buffer. -/
theorem claim_C7 :
    (∀ src : List (List Nat), ∀ t f s c0 c1 : Nat, ∀ rest : List Nat,
       t ≠ 0x7E → f ≠ 0x7E →
       readFrame ⟨src, escape ([t, f, s, 0] ++ [c0, c1]) ++ rest⟩
         = (some ⟨t, f, s, 0, [], [c0, c1]⟩, ⟨src, rest⟩)) ∧
    (∀ src : List (List Nat), ∀ t f s : Nat, ∀ data : List Nat, ∀ c0 c1 : Nat,
       ∀ rest : List Nat, t ≠ 0x7E → f ≠ 0x7E → data.length = 255 →
       readFrame ⟨src, escape ([t, f, s, 255] ++ data ++ [c0, c1]) ++ rest⟩
         = (some ⟨t, f, s, 255, data, [c0, c1]⟩, ⟨src, rest⟩)) := by
  constructor
  · intro src t f s c0 c1 rest ht hf
    have h := readFrame_escape src t f s [] c0 c1 rest ht hf (by decide)
    simpa using h
  · intro src t f s data c0 c1 rest ht hf hlen
    have h := readFrame_escape src t f s data c0 c1 rest ht hf (by omega)
    rw [hlen] at h
    exact h

theorem claim_C7_witness :
    readFrame ⟨[], escape ([1, 2, 3, 0] ++ [0xAA, 0xBB]) ++ []⟩
      = (some ⟨1, 2, 3, 0, [], [0xAA, 0xBB]⟩, ⟨[], []⟩) ∧
    readFrame ⟨[], escape ([1, 2, 3, 255] ++ List.replicate 255 0 ++ [0xAA, 0xBB]) ++ []⟩
      = (some ⟨1, 2, 3, 255, List.replicate 255 0, [0xAA, 0xBB]⟩, ⟨[], []⟩) :=
  ⟨claim_C7.1 [] 1 2 3 0xAA 0xBB [] (by decide) (by decide),
   claim_C7.2 [] 1 2 3 (List.replicate 255 0) 0xAA 0xBB [] (by decide) (by decide)
     (by rw [List.length_replicate])⟩

/-- C8 (amended): malformed or aborted frame attempts contribute no output
record — the decoder's output is exactly the successfully decoded frames,
unchanged by how many attempts were discarded. -/
theorem claim_C8 : ∀ fuel : Nat, ∀ bs : BufferedSerial,
    (decodeLoopCounted fuel bs).1 = decodeLoop fuel bs := by
  intro fuel
  induction fuel with
  | zero => intro bs; rfl
  | succ fuel ih =>
    intro bs
    cases hs : find_and_consume_sync bs.src bs.buf with
    | mk ok bs1 =>
      cases ok with
      | false => simp [decodeLoopCounted, decodeLoop, hs, ih]
      | true =>
        cases hr : readFrame bs1 with
        | mk o bs2 =>
          cases o with
          | none => simp [decodeLoopCounted, decodeLoop, hs, hr, ih]
          | some f0 => simp [decodeLoopCounted, decodeLoop, hs, hr, ih]

/-- C8 counterexample: the count of discarded attempts is not observable —
an empty input and an input with one aborted frame attempt produce identical
decoder output, while the number of discarded attempts differs (0 vs 1).  No
counter of aborted attempts is maintained or exposed by `main`. -/
theorem claim_C8_counterexample :
    decodeLoop 5 ⟨[], []⟩ = decodeLoop 5 ⟨[], [0x7E, 0x7E, 0x1B, 0x7E, 0, 0, 0, 0, 0]⟩ ∧
    (decodeLoopCounted 5 ⟨[], []⟩).2 = 0 ∧
    (decodeLoopCounted 5 ⟨[], [0x7E, 0x7E, 0x1B, 0x7E, 0, 0, 0, 0, 0]⟩).2 = 1 := by
  decide

/-- C10: `read_raw` returns the empty byte string for `n ≤ 0` without touching
any state; for `n > 0` it either returns exactly `n` bytes removed from the
front of the (extended) buffer, or fails with `none`, leaving every byte —
including those fetched during the failed fill — in the buffer. -/
theorem claim_C10 :
    (∀ bs : BufferedSerial, ∀ n : Int, n ≤ 0 → read_raw bs n = (some [], bs)) ∧
    (∀ bs : BufferedSerial, ∀ n : Int, ∀ out : List Nat, ∀ bs' : BufferedSerial,
       0 < n → read_raw bs n = (some out, bs') →
       out.length = n.toNat ∧ ∃ fetched, bs.buf ++ fetched = out ++ bs'.buf) ∧
    (∀ bs : BufferedSerial, ∀ n : Int, ∀ bs' : BufferedSerial,
       0 < n → read_raw bs n = (none, bs') →
       ∃ fetched, bs'.buf = bs.buf ++ fetched) := by
  refine ⟨?_, ?_, ?_⟩
  · intro bs n h
    simp [read_raw, h]
  · intro bs n out bs' hn h
    rw [read_raw, if_neg (by omega)] at h
    cases hfl : fill bs n.toNat with
    | mk ok bsf =>
      rw [hfl] at h
      cases ok with
      | false => simp at h
      | true =>
        simp only [Prod.mk.injEq, Option.some.injEq] at h
        obtain ⟨rfl, rfl⟩ := h
        constructor
        · have hlen := fillAux_true_length bs.src bs.buf n.toNat bsf hfl
          simp only [List.length_take]
          omega
        · obtain ⟨fetched, hfe⟩ := fillAux_buf_extend bs.src bs.buf n.toNat true bsf hfl
          refine ⟨fetched, ?_⟩
          rw [← hfe]
          simp [List.take_append_drop]
  · intro bs n bs' hn h
    rw [read_raw, if_neg (by omega)] at h
    cases hfl : fill bs n.toNat with
    | mk ok bsf =>
      rw [hfl] at h
      cases ok with
      | true => simp at h
      | false =>
        simp only [Prod.mk.injEq] at h
        obtain ⟨-, rfl⟩ := h
        exact fillAux_buf_extend bs.src bs.buf n.toNat false bsf hfl

theorem claim_C10_witness :
    read_raw ⟨[[0x05]], [0x09]⟩ (-1) = (some [], ⟨[[0x05]], [0x09]⟩) ∧
    (([0x00, 0x01] : List Nat).length = (2 : Int).toNat ∧
      ∃ fetched, (⟨[[0x01, 0x02]], [0x00]⟩ : BufferedSerial).buf ++ fetched
        = [0x00, 0x01] ++ (⟨[], [0x02]⟩ : BufferedSerial).buf) ∧
    (∃ fetched, (⟨[], [0x00]⟩ : BufferedSerial).buf
        = (⟨[], [0x00]⟩ : BufferedSerial).buf ++ fetched) :=
  ⟨claim_C10.1 ⟨[[0x05]], [0x09]⟩ (-1) (by decide),
   claim_C10.2.1 ⟨[[0x01, 0x02]], [0x00]⟩ 2 [0x00, 0x01] ⟨[], [0x02]⟩ (by decide) (by decide),
   claim_C10.2.2 ⟨[], [0x00]⟩ 2 ⟨[], [0x00]⟩ (by decide) (by decide)⟩

end LcpSniff
